import Mathlib

/-!
Shallow embedding of the BFS shortest-path core of `leetcode-pygame`
(`src/leetcode_pygame/bfs_shortest_path/algorithm.py` and the algorithmic
part of `states.py`), together with theorems settling the specification
claims about it.

Modelling conventions:
* A grid is a list of rows of 0/1 entries, indexed `grid[x][y]` exactly as
  in the Python source.  `gridAt` is the total lookup with default `0`;
  every claim that depends on cell contents quantifies over in-bounds
  positions, where `gridAt` agrees with the Python indexing.
* The Boolean matrix `visited` is embedded as the list of positions that
  have been set to `True`, in insertion order; `visited[x][y]` is list
  membership.  This is faithful because the source only ever sets entries
  to `True` and only reads entries at in-bounds coordinates (`is_valid`
  bounds-checks first).
* `collections.deque` used as a FIFO queue is a list: `popleft` is taking
  the head, `extend` is appending on the right.
* The unbounded `while` loops are written with an explicit fuel parameter
  whose exhaustion branch returns `none`; `bfs_rounds_isSome` below proves
  that the fuel `size * size + 1` used by `shortest_path` is never
  exhausted, so the `none` branch is dead code, as in the source.
* The Python dict `parents` is an association list extended on the right;
  keys are only ever fresh (they are unvisited cells that get marked
  visited at insertion time), so first-match lookup is faithful.
-/

namespace LeetcodeBFS

/-- Cell value marking a wall (`WALL = 1` in `algorithm.py`). -/
def WALL : Nat := 1

/-- Cell value marking an open cell (`NON_WALL = 0` in `algorithm.py`). -/
def NON_WALL : Nat := 0

/-- A position `(x, y)` in the grid, read as the indices of `grid[x][y]`. -/
abbrev Pos := Nat × Nat

/-- A grid: list of rows of 0/1 entries. -/
abbrev Grid := List (List Nat)

/-- The eight king-move offsets, in the order `DIRECTIONS` lists them. -/
def DIRECTIONS : List (Int × Int) :=
  [(1, 0), (1, 1), (0, 1), (-1, 1), (-1, 0), (-1, -1), (0, -1), (1, -1)]

/-- Total lookup `grid[x][y]` (default `0`; the source only reads
in-bounds cells, where this agrees with Python indexing). -/
def gridAt (grid : Grid) (x y : Nat) : Nat :=
  (grid.getD x []).getD y 0

/-- `is_valid(x, y, grid, size, visited)` from `algorithm.py`: the
candidate `(x, y)` is in bounds, not a wall, and not yet visited. -/
def is_valid (x y : Int) (grid : Grid) (size : Nat) (visited : List Pos) : Bool :=
  if ¬ (0 ≤ x ∧ x < (size : Int) ∧ 0 ≤ y ∧ y < (size : Int)) then false
  else if gridAt grid x.toNat y.toNat = WALL then false
  else if (x.toNat, y.toNat) ∈ visited then false
  else true

/-- The `for dx, dy in DIRECTIONS` loop of `visit_neighbors`: walks the
direction list, marking each valid candidate visited and collecting it in
the `neighbors` accumulator.  Returns the final `(visited, neighbors)`. -/
def visitLoop (x y : Nat) (grid : Grid) (size : Nat) :
    List (Int × Int) → List Pos → List Pos → List Pos × List Pos
  | [], visited, neighbors => (visited, neighbors)
  | d :: ds, visited, neighbors =>
    let nx : Int := (x : Int) + d.1
    let ny : Int := (y : Int) + d.2
    if is_valid nx ny grid size visited then
      visitLoop x y grid size ds (visited ++ [(nx.toNat, ny.toNat)])
        (neighbors ++ [(nx.toNat, ny.toNat)])
    else
      visitLoop x y grid size ds visited neighbors

/-- `visit_neighbors(x, y, grid, size, visited, queue)` from
`algorithm.py`.  Returns the updated visited list, the updated queue
(`queue.extend(neighbors)`), and the list of newly discovered neighbors
(the function's return value). -/
def visit_neighbors (x y : Nat) (grid : Grid) (size : Nat)
    (visited : List Pos) (queue : List Pos) : List Pos × List Pos × List Pos :=
  let r := visitLoop x y grid size DIRECTIONS visited []
  (r.1, queue ++ r.2, r.2)

/-- The inner `for _ in range(0, elements_at_level)` loop of
`shortest_path`: dequeues `n` cells; on dequeuing `endPos` stops with
`true` (the source returns the level there), otherwise visits the cell's
neighbors.  Returns `(found, visited, queue)`. -/
def run_level (grid : Grid) (size : Nat) (endPos : Pos) :
    Nat → List Pos → List Pos → Bool × List Pos × List Pos
  | 0, visited, queue => (false, visited, queue)
  | _ + 1, visited, [] => (false, visited, [])
  | n + 1, visited, p :: rest =>
    if p = endPos then (true, visited, rest)
    else
      let r := visit_neighbors p.1 p.2 grid size visited rest
      run_level grid size endPos n r.1 r.2.1

/-- The outer `while len(queue) > 0` loop of `shortest_path`.  Each round
increments the level and processes exactly the cells that were queued at
the round's start.  The fuel's `none` branch is dead code for the fuel
`shortest_path` supplies (see `bfs_rounds_isSome`). -/
def bfs_rounds (grid : Grid) (size : Nat) (endPos : Pos) :
    Nat → List Pos → List Pos → Nat → Option Int
  | 0, _, _, _ => none
  | fuel + 1, visited, queue, level =>
    if queue.isEmpty then some (-1)
    else
      let r := run_level grid size endPos queue.length visited queue
      if r.1 then some ((level : Int) + 1)
      else bfs_rounds grid size endPos fuel r.2.1 r.2.2 (level + 1)

/-- Fuel that `shortest_path` hands to `bfs_rounds`; proved sufficient in
`bfs_rounds_isSome`. -/
def bfsFuel (size : Nat) : Nat := size * size + 1

/-- `shortest_path(grid, start, end)` from `algorithm.py` with explicit
endpoints: returns `-1` if either endpoint is a wall, otherwise runs the
level-by-level BFS starting from `visited = {start}`, `queue = [start]`,
`level = 0`. -/
def shortest_path (grid : Grid) (start endPos : Pos) : Int :=
  let size := grid.length
  if gridAt grid start.1 start.2 = WALL ∨ gridAt grid endPos.1 endPos.2 = WALL then -1
  else (bfs_rounds grid size endPos (bfsFuel size) [start] [start] 0).getD (-1)

/-- `shortest_path(grid)` with the defaulted endpoints `start = (0, 0)`
and `end = (size - 1, size - 1)`. -/
def shortest_path_default (grid : Grid) : Int :=
  shortest_path grid (0, 0) (grid.length - 1, grid.length - 1)

/-! ### The stepwise engine (`SimulationState` in `states.py`)

Only the algorithmic fields are embedded (`grid`, `grid_size`, `visited`,
`queue`, `parents`, `start_pos`, `end_pos`, `level`); the sprite groups
are rendering state that the algorithm never reads.  The Python dict
`self.parents = {start_pos: None}` stores one `None` binding for the
start; here `parents` holds only the real parent edges and the start's
sentinel is represented by absence (`build_final_path` stops at the start
before ever looking it up, exactly as the `while current != start` loop
does). -/

/-- The algorithmic state of `SimulationState`. -/
structure SimState where
  grid : Grid
  grid_size : Nat
  visited : List Pos
  queue : List Pos
  parents : List (Pos × Pos)
  start_pos : Pos
  end_pos : Pos
  level : Nat
deriving Repr, DecidableEq

/-- `SimulationState.__init__(game, grid, start_pos, end_pos)`: the
constructor performs no validation of the endpoints; it always succeeds
with `visited = {start}`, `queue = [start]`, `parents = {start: None}`,
`level = 0`. -/
def initState (grid : Grid) (start_pos end_pos : Pos) : SimState :=
  { grid := grid
    grid_size := grid.length
    visited := [start_pos]
    queue := [start_pos]
    parents := []
    start_pos := start_pos
    end_pos := end_pos
    level := 0 }

/-- `SimulationState.visit_neighbors(x, y)`: delegates to the module-level
`visit_neighbors` and records `(x, y)` as the parent of every newly
discovered neighbor. -/
def SimState.visitNeighbors (s : SimState) (x y : Nat) : SimState :=
  let r := visit_neighbors x y s.grid s.grid_size s.visited s.queue
  { s with
    visited := r.1
    queue := r.2.1
    parents := s.parents ++ r.2.2.map (fun n => (n, (x, y))) }

/-- Outcome of one `perform_update` call: keep running, transition to
`NoPathState`, or transition to `CompletionState` (carrying the engine
state at that moment and the reported level). -/
inductive StepResult where
  | running (s : SimState)
  | noPath (level : Nat)
  | completed (s : SimState) (level : Nat)
deriving Repr, DecidableEq

/-- The inner `for _ in range(0, elements_at_level)` loop of
`perform_update`: dequeues `n` cells, stopping with `completed` the
moment the end position is dequeued. -/
def sim_run_level : Nat → SimState → StepResult
  | 0, s => .running s
  | n + 1, s =>
    match s.queue with
    | [] => .running s
    | p :: rest =>
      let s' := { s with queue := rest }
      if p = s.end_pos then .completed s' s'.level
      else sim_run_level n (s'.visitNeighbors p.1 p.2)

/-- `SimulationState.perform_update()`: on an empty queue transitions to
`NoPathState`; otherwise increments the level and processes exactly the
cells queued at the call's start. -/
def SimState.perform_update (s : SimState) : StepResult :=
  if s.queue.isEmpty then .noPath s.level
  else sim_run_level s.queue.length { s with level := s.level + 1 }

/-- Terminal outcome of draining the engine. -/
inductive SimOutcome where
  | noPath (level : Nat)
  | found (s : SimState) (level : Nat)
deriving Repr, DecidableEq

/-- Drain the engine by calling `perform_update` until it reaches a
terminal state; `none` on fuel exhaustion (dead for sufficient fuel). -/
def run_sim : Nat → SimState → Option SimOutcome
  | 0, _ => none
  | fuel + 1, s =>
    match s.perform_update with
    | .running s' => run_sim fuel s'
    | .noPath level => some (.noPath level)
    | .completed s' level => some (.found s' level)

/-- The drained engine's integer result, aligned with the one-shot
convention: the reported level on FOUND, `-1` on queue exhaustion. -/
def run_to_completion (fuel : Nat) (s : SimState) : Option Int :=
  (run_sim fuel s).map fun o =>
    match o with
    | .noPath _ => -1
    | .found _ level => (level : Int)

/-! ### Path reconstruction (`SimulationState.build_final_path`) -/

/-- First-match lookup in the parents association list (Python dict
lookup; keys are only ever inserted fresh, so first match is the match). -/
def lookupParent (parents : List (Pos × Pos)) (p : Pos) : Option Pos :=
  match parents with
  | [] => none
  | (k, v) :: rest => if k = p then some v else lookupParent rest p

/-- `build_final_path`: walk parent links backward from `current` until
the start, producing the path in start-to-end order.  The fuel bounds the
`while current != start` loop; `none` also models the `KeyError` a missing
parent binding would raise. -/
def build_final_path (parents : List (Pos × Pos)) (start_pos : Pos) :
    Nat → Pos → Option (List Pos)
  | 0, _ => none
  | fuel + 1, current =>
    if current = start_pos then some [current]
    else
      match lookupParent parents current with
      | none => none
      | some prev => (build_final_path parents start_pos fuel prev).map (· ++ [current])

/-! ### The grid generator (`create_grid` and its wrappers)

`random.choice([NON_WALL, WALL])` sampling is embedded by passing the
stream of sampled grids explicitly: `samples` lists the raw random grids
the loop would draw, in order, and the rejection loop scans them for the
first one that satisfies the predicate after the endpoints are forced
open.  `none` inside `.ok` means the sample stream ran out with no
accepted grid (the unbounded Python loop would keep drawing). -/

/-- `ValueError("Size must be at least 3")` raised by `create_grid`. -/
inductive GenError where
  | invalidSize
deriving Repr, DecidableEq

/-- Write value `v` into cell `p` of the grid (`grid[p][q] = v`). -/
def setCell (g : Grid) (p : Pos) (v : Nat) : Grid :=
  g.set p.1 ((g.getD p.1 []).set p.2 v)

/-- One iteration body of the rejection loop: force the start and end
cells open in the sampled grid. -/
def forceOpen (start_pos end_pos : Pos) (g : Grid) : Grid :=
  setCell (setCell g start_pos NON_WALL) end_pos NON_WALL

/-- `create_grid(size, start_position, end_position, predicate)`: fails
with `InvalidSize` before any sampling when `size < 3`; otherwise scans
the sample stream for the first grid that, with endpoints forced open,
satisfies the predicate of its one-shot shortest-path result. -/
def create_grid (size : Nat) (start_pos : Pos) (end_pos : Option Pos)
    (pred : Int → Bool) (samples : List Grid) : Except GenError (Option Grid) :=
  if size < 3 then .error .invalidSize
  else
    let ep := end_pos.getD (size - 1, size - 1)
    .ok ((samples.map (forceOpen start_pos ep)).find?
      fun g => pred (shortest_path g start_pos ep))

/-- `create_good_grid`: `create_grid` with the solvability predicate
`lambda x: x > 0`. -/
def create_good_grid (size : Nat) (start_pos : Pos) (end_pos : Option Pos)
    (samples : List Grid) : Except GenError (Option Grid) :=
  create_grid size start_pos end_pos (fun x => decide (0 < x)) samples

/-- `create_bad_grid`: `create_grid` with the unsolvability predicate
`lambda x: x == -1`. -/
def create_bad_grid (size : Nat) (start_pos : Pos) (end_pos : Option Pos)
    (samples : List Grid) : Except GenError (Option Grid) :=
  create_grid size start_pos end_pos (fun x => decide (x = -1)) samples

/-! ### Derived notions used by the claims -/

/-- `p` is in bounds of a `size × size` grid. -/
def inBounds (size : Nat) (p : Pos) : Prop :=
  p.1 < size ∧ p.2 < size

/-- `p` is an open (non-wall) cell of the grid. -/
def openCell (grid : Grid) (p : Pos) : Prop :=
  gridAt grid p.1 p.2 ≠ WALL

/-- 8-connectivity: `q` is one king move away from `p`. -/
def Adjacent (p q : Pos) : Prop :=
  ∃ d ∈ DIRECTIONS, ((q.1 : Int), (q.2 : Int)) = ((p.1 : Int) + d.1, (p.2 : Int) + d.2)

instance (size : Nat) (p : Pos) : Decidable (inBounds size p) := by
  unfold inBounds; infer_instance

instance (grid : Grid) (p : Pos) : Decidable (openCell grid p) := by
  unfold openCell; infer_instance

instance (p q : Pos) : Decidable (Adjacent p q) := by
  unfold Adjacent; infer_instance

/-! ### Properties of `is_valid` and the neighbor loop -/

theorem is_valid_iff (x y : Int) (grid : Grid) (size : Nat) (visited : List Pos) :
    is_valid x y grid size visited = true ↔
      (0 ≤ x ∧ x < (size : Int) ∧ 0 ≤ y ∧ y < (size : Int)) ∧
      gridAt grid x.toNat y.toNat ≠ WALL ∧ (x.toNat, y.toNat) ∉ visited := by
  unfold is_valid
  split
  · simp only [Bool.false_eq_true, false_iff]
    tauto
  · split
    · simp only [Bool.false_eq_true, false_iff]
      tauto
    · split
      · simp only [Bool.false_eq_true, false_iff]
        tauto
      · simp only [true_iff]
        tauto

/-- Running the direction loop appends one common block `new` of freshly
accepted cells to both the visited list and the neighbor accumulator.
Every accepted cell is fresh, in bounds, open, and one of the offsets of
`ds` away from `(x, y)`. -/
theorem visitLoop_spec (x y : Nat) (grid : Grid) (size : Nat) :
    ∀ (ds : List (Int × Int)) (v nb : List Pos),
      ∃ new : List Pos,
        (visitLoop x y grid size ds v nb).1 = v ++ new ∧
        (visitLoop x y grid size ds v nb).2 = nb ++ new ∧
        new.Nodup ∧
        ∀ p ∈ new, p ∉ v ∧ p.1 < size ∧ p.2 < size ∧
          gridAt grid p.1 p.2 ≠ WALL ∧
          ∃ d ∈ ds, ((p.1 : Int), (p.2 : Int)) = ((x : Int) + d.1, (y : Int) + d.2) := by
  intro ds
  induction ds with
  | nil => intro v nb; exact ⟨[], by simp [visitLoop]⟩
  | cons d ds ih =>
    intro v nb
    by_cases hv : is_valid ((x : Int) + d.1) ((y : Int) + d.2) grid size v = true
    · obtain ⟨hbnd, hwall, hmem⟩ := (is_valid_iff _ _ _ _ _).mp hv
      set c : Pos := (((x : Int) + d.1).toNat, ((y : Int) + d.2).toNat) with hc
      obtain ⟨new, h1, h2, hnd, hprop⟩ := ih (v ++ [c]) (nb ++ [c])
      have hcx : ((c.1 : Int), (c.2 : Int)) = ((x : Int) + d.1, (y : Int) + d.2) := by
        simp only [hc, Prod.mk.injEq]
        constructor <;> exact Int.toNat_of_nonneg (by omega)
      have e1 : c.1 = ((x : Int) + d.1).toNat := rfl
      have e2 : c.2 = ((y : Int) + d.2).toNat := rfl
      have hcb : c.1 < size ∧ c.2 < size := by
        obtain ⟨hb1, hb2, hb3, hb4⟩ := hbnd
        omega
      refine ⟨c :: new, ?_, ?_, ?_, ?_⟩
      · simpa [visitLoop, hv] using h1
      · simpa [visitLoop, hv] using h2
      · refine List.nodup_cons.mpr ⟨fun hcn => ?_, hnd⟩
        exact (hprop c hcn).1 (by simp)
      · intro p hp
        rcases List.mem_cons.mp hp with hpc | hp'
        · rw [hpc]
          refine ⟨hmem, hcb.1, hcb.2, ?_, d, by simp, hcx⟩
          rw [e1, e2]
          exact hwall
        · obtain ⟨hnv, hb1, hb2, hw, d', hd', he⟩ := hprop p hp'
          refine ⟨fun hpv => hnv (by simp [hpv]), hb1, hb2, hw, d', by simp [hd'], he⟩
    · obtain ⟨new, h1, h2, hnd, hprop⟩ := ih v nb
      refine ⟨new, ?_, ?_, hnd, ?_⟩
      · simpa [visitLoop, hv] using h1
      · simpa [visitLoop, hv] using h2
      · intro p hp
        obtain ⟨hnv, hb1, hb2, hw, d', hd', he⟩ := hprop p hp
        exact ⟨hnv, hb1, hb2, hw, d', by simp [hd'], he⟩

/-- Conversely, every in-bounds, open, unvisited cell one `ds`-offset away
from `(x, y)` ends up in the neighbor accumulator. -/
theorem visitLoop_mem (x y : Nat) (grid : Grid) (size : Nat) (p : Pos)
    (hb1 : p.1 < size) (hb2 : p.2 < size) (hw : gridAt grid p.1 p.2 ≠ WALL) :
    ∀ (ds : List (Int × Int)) (v nb : List Pos) (d : Int × Int), d ∈ ds →
      ((p.1 : Int), (p.2 : Int)) = ((x : Int) + d.1, (y : Int) + d.2) →
      p ∉ v → p ∈ (visitLoop x y grid size ds v nb).2 := by
  intro ds
  induction ds with
  | nil => intro v nb d hd; exact absurd hd (List.not_mem_nil d)
  | cons d0 ds ih =>
    intro v nb d hd he hpv
    by_cases hsame : ((p.1 : Int), (p.2 : Int)) = ((x : Int) + d0.1, (y : Int) + d0.2)
    · have hpe : (((x : Int) + d0.1).toNat, ((y : Int) + d0.2).toNat) = p := by
        have h1 : (x : Int) + d0.1 = (p.1 : Int) := by
          have := congrArg Prod.fst hsame; simp at this; omega
        have h2 : (y : Int) + d0.2 = (p.2 : Int) := by
          have := congrArg Prod.snd hsame; simp at this; omega
        simp [h1, h2]
      have hv : is_valid ((x : Int) + d0.1) ((y : Int) + d0.2) grid size v = true := by
        rw [is_valid_iff]
        have h1 : (x : Int) + d0.1 = (p.1 : Int) := by
          have := congrArg Prod.fst hsame; simp at this; omega
        have h2 : (y : Int) + d0.2 = (p.2 : Int) := by
          have := congrArg Prod.snd hsame; simp at this; omega
        refine ⟨by constructor <;> omega, ?_, ?_⟩
        · rw [h1, h2]; simpa using hw
        · rw [h1, h2]; simpa using hpv
      obtain ⟨new, _, h2, _, _⟩ :=
        visitLoop_spec x y grid size ds (v ++ [(((x : Int) + d0.1).toNat, ((y : Int) + d0.2).toNat)])
          (nb ++ [(((x : Int) + d0.1).toNat, ((y : Int) + d0.2).toNat)])
      simp only [visitLoop, hv, if_true]
      rw [h2, hpe]
      simp
    · have hd' : d ∈ ds := by
        rcases List.mem_cons.mp hd with rfl | h
        · exact absurd he hsame
        · exact h
      by_cases hv : is_valid ((x : Int) + d0.1) ((y : Int) + d0.2) grid size v = true
      · obtain ⟨hbnd, _, _⟩ := (is_valid_iff _ _ _ _ _).mp hv
        have hpc : p ≠ (((x : Int) + d0.1).toNat, ((y : Int) + d0.2).toNat) := by
          intro hpc
          apply hsame
          rw [hpc]
          simp only [Prod.mk.injEq]
          constructor <;> exact Int.toNat_of_nonneg (by omega)
        simp only [visitLoop, hv, if_true]
        exact ih _ _ d hd' he (by simp [hpv, hpc])
      · simp only [visitLoop, hv, if_false]
        exact ih _ _ d hd' he hpv

/-! ### Properties of the BFS level loop and the outer round loop -/

/-- If the end position sits among the first `n` queued cells, dequeuing
`n` cells finds it. -/
theorem run_level_found (grid : Grid) (size : Nat) (endPos : Pos) :
    ∀ (n : Nat) (v q : List Pos), endPos ∈ q.take n →
      (run_level grid size endPos n v q).1 = true := by
  intro n
  induction n with
  | zero => intro v q h; simp at h
  | succ n ih =>
    intro v q h
    match q with
    | [] => simp at h
    | p :: rest =>
      by_cases hp : p = endPos
      · simp [run_level, hp]
      · have hmem : endPos ∈ rest.take n := by
          rcases List.mem_cons.mp (by simpa using h) with h' | h'
          · exact absurd h'.symm hp
          · exact h'
        simp only [run_level, hp, if_false]
        apply ih
        have : rest.take n ⊆ ((rest ++
            (visitLoop p.1 p.2 grid size DIRECTIONS v []).2).take n) := by
          rw [List.take_append_eq_append_take]
          exact List.subset_append_left _ _
        exact this hmem

/-- Shape of a full non-finding pass over one level: the same block `t`
of newly discovered cells is appended to the visited list and is all that
remains of the processed part of the queue; new cells are in bounds and
open, and no-duplication of the visited list is preserved. -/
theorem run_level_spec (grid : Grid) (size : Nat) (endPos : Pos) :
    ∀ (n : Nat) (v q : List Pos), n ≤ q.length →
      (run_level grid size endPos n v q).1 = false →
      ∃ t : List Pos,
        (run_level grid size endPos n v q).2.1 = v ++ t ∧
        (run_level grid size endPos n v q).2.2 = q.drop n ++ t ∧
        (v.Nodup → (v ++ t).Nodup) ∧
        ∀ p ∈ t, p.1 < size ∧ p.2 < size ∧ gridAt grid p.1 p.2 ≠ WALL := by
  intro n
  induction n with
  | zero => intro v q _ _; exact ⟨[], by simp [run_level], by simp [run_level], by simp, by simp⟩
  | succ n ih =>
    intro v q hn hf
    match q with
    | [] => simp at hn
    | p :: rest =>
      by_cases hp : p = endPos
      · rw [run_level, if_pos hp] at hf
        simp at hf
      · rw [run_level, if_neg hp] at hf ⊢
        dsimp only at hf ⊢
        obtain ⟨new, hv1, hn1, hnd1, hp1⟩ :=
          visitLoop_spec p.1 p.2 grid size DIRECTIONS v []
        have hlen : n ≤ (rest ++ new).length := by
          simp only [List.length_append]
          simp only [List.length_cons] at hn
          omega
        have hveq : (visit_neighbors p.1 p.2 grid size v rest).1 = v ++ new := hv1
        have hqeq : (visit_neighbors p.1 p.2 grid size v rest).2.1 = rest ++ new := by
          show rest ++ (visitLoop p.1 p.2 grid size DIRECTIONS v []).2 = rest ++ new
          rw [hn1]
          simp
        rw [hveq, hqeq] at hf ⊢
        obtain ⟨t, h1, h2, h3, h4⟩ := ih (v ++ new) (rest ++ new) hlen hf
        have hdrop : (rest ++ new).drop n = rest.drop n ++ new := by
          rw [List.drop_append_eq_append_drop]
          have : n - rest.length = 0 := by
            simp only [List.length_cons] at hn
            omega
          rw [this]
          simp
        refine ⟨new ++ t, ?_, ?_, ?_, ?_⟩
        · rw [h1, List.append_assoc]
        · rw [h2, hdrop]
          simp [List.append_assoc]
        · intro hvnd
          have hvnew : (v ++ new).Nodup := by
            rw [List.nodup_append]
            refine ⟨hvnd, hnd1, ?_⟩
            intro a ha hanew
            exact (hp1 a hanew).1 ha
          rw [← List.append_assoc]
          exact h3 hvnew
        · intro q hq
          rcases List.mem_append.mp hq with h | h
          · obtain ⟨_, hb1, hb2, hw, _⟩ := hp1 q h
            exact ⟨hb1, hb2, hw⟩
          · exact h4 q h

/-- Every result of the round loop is `none`, `-1`, or at least one more
than the entry level. -/
theorem bfs_rounds_result (grid : Grid) (size : Nat) (endPos : Pos) :
    ∀ (fuel : Nat) (v q : List Pos) (level : Nat),
      bfs_rounds grid size endPos fuel v q level = none ∨
      bfs_rounds grid size endPos fuel v q level = some (-1) ∨
      ∃ r : Int, bfs_rounds grid size endPos fuel v q level = some r ∧ (level : Int) + 1 ≤ r := by
  intro fuel
  induction fuel with
  | zero => intro v q level; left; rfl
  | succ fuel ih =>
    intro v q level
    rw [bfs_rounds]
    by_cases hq : q.isEmpty
    · right; left; simp [hq]
    · simp only [hq, if_false]
      by_cases hfound : (run_level grid size endPos q.length v q).1
      · right; right
        exact ⟨(level : Int) + 1, by simp [hfound], by omega⟩
      · simp only [hfound, if_false, Bool.false_eq_true]
        rcases ih (run_level grid size endPos q.length v q).2.1
            (run_level grid size endPos q.length v q).2.2 (level + 1) with h | h | ⟨r, hr, hlev⟩
        · left; exact h
        · right; left; exact h
        · right; right
          refine ⟨r, hr, ?_⟩
          have : ((level : Int) + 1) + 1 ≤ r := by
            have : (((level + 1 : Nat)) : Int) + 1 ≤ r := hlev
            push_cast at this
            omega
          omega

/-- A duplicate-free list of in-bounds positions has at most `size * size`
entries. -/
theorem nodup_inBounds_length_le (size : Nat) (v : List Pos) (hnd : v.Nodup)
    (hb : ∀ p ∈ v, p.1 < size ∧ p.2 < size) : v.length ≤ size * size := by
  classical
  have hsub : v.toFinset ⊆ Finset.range size ×ˢ Finset.range size := by
    intro p hp
    rw [List.mem_toFinset] at hp
    obtain ⟨h1, h2⟩ := hb p hp
    simp [Finset.mem_product, Finset.mem_range, h1, h2]
  have hcard := Finset.card_le_card hsub
  rw [List.toFinset_card_of_nodup hnd] at hcard
  simpa [Finset.card_product] using hcard

/-- The fuel argument never runs out: under the visited-list invariants
and the fuel inequality, the round loop returns a result.  Instantiated
at the initial state this shows the `none` branch of `bfs_rounds` is dead
code for the fuel `shortest_path` supplies. -/
theorem bfs_rounds_isSome (grid : Grid) (size : Nat) (endPos : Pos) :
    ∀ (fuel : Nat) (v q : List Pos) (level : Nat),
      v.Nodup → (∀ p ∈ v, p.1 < size ∧ p.2 < size) →
      size * size + q.length < fuel + v.length →
      (bfs_rounds grid size endPos fuel v q level).isSome := by
  intro fuel
  induction fuel with
  | zero =>
    intro v q level hnd hinb hlt
    have := nodup_inBounds_length_le size v hnd hinb
    omega
  | succ fuel ih =>
    intro v q level hnd hinb hlt
    rw [bfs_rounds]
    by_cases hq : q.isEmpty
    · simp [hq]
    · simp only [hq, if_false]
      by_cases hfound : (run_level grid size endPos q.length v q).1
      · simp [hfound]
      · simp only [hfound, if_false, Bool.false_eq_true]
        have hqlen : 1 ≤ q.length := by
          cases q with
          | nil => simp at hq
          | cons a l => simp
        obtain ⟨t, h1, h2, h3, h4⟩ := run_level_spec grid size endPos q.length v q le_rfl
          (by simpa using hfound)
        rw [h1, h2]
        have hdrop : q.drop q.length = [] := by simp
        rw [hdrop, List.nil_append]
        apply ih (v ++ t) t (level + 1) (h3 hnd)
        · intro p hp
          rcases List.mem_append.mp hp with h | h
          · exact hinb p h
          · exact ⟨(h4 p h).1, (h4 p h).2.1⟩
        · simp only [List.length_append]
          omega

/-! ### The one-shot result and the correspondence with the stepwise engine -/

/-- For in-bounds, open endpoints the round loop returns exactly the
one-shot result (and in particular returns: the fuel is sufficient). -/
theorem shortest_path_eq_some (grid : Grid) (start endPos : Pos)
    (hs1 : start.1 < grid.length) (hs2 : start.2 < grid.length)
    (hso : openCell grid start) (heo : openCell grid endPos) :
    bfs_rounds grid grid.length endPos (bfsFuel grid.length) [start] [start] 0 =
      some (shortest_path grid start endPos) := by
  have hsome := bfs_rounds_isSome grid grid.length endPos (bfsFuel grid.length)
    [start] [start] 0 (by simp)
    (by intro p hp; simp only [List.mem_singleton] at hp; rw [hp]; exact ⟨hs1, hs2⟩)
    (by simp [bfsFuel])
  obtain ⟨r, hr⟩ := Option.isSome_iff_exists.mp hsome
  rw [hr]
  unfold shortest_path
  rw [if_neg (by push_neg; exact ⟨hso, heo⟩)]
  rw [hr]
  rfl

/-- `SimulationState.visit_neighbors` changes only the visited list, the
queue and the parent map, and the first two exactly as the module-level
`visit_neighbors` does. -/
theorem simVisit_spec (s : SimState) (x y : Nat) :
    (s.visitNeighbors x y).grid = s.grid ∧
    (s.visitNeighbors x y).grid_size = s.grid_size ∧
    (s.visitNeighbors x y).start_pos = s.start_pos ∧
    (s.visitNeighbors x y).end_pos = s.end_pos ∧
    (s.visitNeighbors x y).level = s.level ∧
    (s.visitNeighbors x y).visited = (visit_neighbors x y s.grid s.grid_size s.visited s.queue).1 ∧
    (s.visitNeighbors x y).queue = (visit_neighbors x y s.grid s.grid_size s.visited s.queue).2.1 := by
  refine ⟨rfl, rfl, rfl, rfl, rfl, rfl, rfl⟩

/-- The inner loop of `perform_update` tracks the inner loop of
`shortest_path` exactly: same found/not-found outcome, same visited list
and queue, and the bookkeeping fields are untouched. -/
theorem sim_run_level_spec :
    ∀ (n : Nat) (s : SimState),
      ((run_level s.grid s.grid_size s.end_pos n s.visited s.queue).1 = true →
        ∃ s', sim_run_level n s = .completed s' s.level ∧
          s'.start_pos = s.start_pos ∧ s'.end_pos = s.end_pos ∧ s'.level = s.level) ∧
      ((run_level s.grid s.grid_size s.end_pos n s.visited s.queue).1 = false →
        ∃ s', sim_run_level n s = .running s' ∧
          s'.visited = (run_level s.grid s.grid_size s.end_pos n s.visited s.queue).2.1 ∧
          s'.queue = (run_level s.grid s.grid_size s.end_pos n s.visited s.queue).2.2 ∧
          s'.grid = s.grid ∧ s'.grid_size = s.grid_size ∧ s'.start_pos = s.start_pos ∧
          s'.end_pos = s.end_pos ∧ s'.level = s.level) := by
  intro n
  induction n with
  | zero =>
    intro s
    constructor
    · intro h; simp [run_level] at h
    · intro _
      exact ⟨s, rfl, rfl, rfl, rfl, rfl, rfl, rfl, rfl⟩
  | succ n ih =>
    intro s
    match hq : s.queue with
    | [] =>
      constructor
      · intro h; simp [run_level] at h
      · intro _
        refine ⟨s, ?_, ?_, ?_, rfl, rfl, rfl, rfl, rfl⟩
        · rw [sim_run_level, hq]
        · rfl
        · show s.queue = ([] : List Pos)
          exact hq
    | p :: rest =>
      by_cases hp : p = s.end_pos
      · constructor
        · intro _
          refine ⟨{ s with queue := rest }, ?_, rfl, rfl, rfl⟩
          rw [sim_run_level, hq]
          simp [hp]
        · intro h
          rw [run_level, if_pos hp] at h
          simp at h
      · have hrw : run_level s.grid s.grid_size s.end_pos (n + 1) s.visited (p :: rest) =
            run_level s.grid s.grid_size s.end_pos n
              (visit_neighbors p.1 p.2 s.grid s.grid_size s.visited rest).1
              (visit_neighbors p.1 p.2 s.grid s.grid_size s.visited rest).2.1 := by
          rw [run_level, if_neg hp]
        set s1 := ({ s with queue := rest } : SimState).visitNeighbors p.1 p.2 with hs1
        have hfields : s1.grid = s.grid ∧ s1.grid_size = s.grid_size ∧
            s1.start_pos = s.start_pos ∧ s1.end_pos = s.end_pos ∧ s1.level = s.level ∧
            s1.visited = (visit_neighbors p.1 p.2 s.grid s.grid_size s.visited rest).1 ∧
            s1.queue = (visit_neighbors p.1 p.2 s.grid s.grid_size s.visited rest).2.1 := by
          exact ⟨rfl, rfl, rfl, rfl, rfl, rfl, rfl⟩
        obtain ⟨hg, hgs, hsp, hep, hlv, hvv, hqq⟩ := hfields
        have hsim : sim_run_level (n + 1) s = sim_run_level n s1 := by
          rw [sim_run_level, hq]
          simp [hp, hs1]
        have ihs1 := ih s1
        rw [hg, hgs, hep, hvv, hqq] at ihs1
        constructor
        · intro h
          rw [hrw] at h
          obtain ⟨s', he, h1, h2, h3⟩ := ihs1.1 h
          exact ⟨s', by rw [hsim, he, hlv], by rw [h1, hsp], by rw [h2], by rw [h3, hlv]⟩
        · intro h
          rw [hrw] at h
          obtain ⟨s', he, h1, h2, h3, h4, h5, h6, h7⟩ := ihs1.2 h
          refine ⟨s', by rw [hsim, he], ?_, ?_, by rw [h3], by rw [h4],
            by rw [h5, hsp], by rw [h6], by rw [h7, hlv]⟩
          · rw [h1, hrw]
          · rw [h2, hrw]

/-- Draining the stepwise engine computes exactly what the one-shot
round loop computes on the engine's algorithmic fields. -/
theorem run_to_completion_eq_bfs :
    ∀ (fuel : Nat) (s : SimState),
      run_to_completion fuel s =
        bfs_rounds s.grid s.grid_size s.end_pos fuel s.visited s.queue s.level := by
  intro fuel
  induction fuel with
  | zero => intro s; rfl
  | succ fuel ih =>
    intro s
    rw [bfs_rounds]
    by_cases hq : s.queue.isEmpty
    · rw [if_pos hq]
      unfold run_to_completion run_sim SimState.perform_update
      rw [if_pos hq]
      rfl
    · rw [if_neg hq]
      set sInc : SimState := { s with level := s.level + 1 } with hsInc
      have hspec := sim_run_level_spec s.queue.length sInc
      have hIncFields : sInc.grid = s.grid ∧ sInc.grid_size = s.grid_size ∧
          sInc.end_pos = s.end_pos ∧ sInc.visited = s.visited ∧ sInc.queue = s.queue ∧
          sInc.level = s.level + 1 := ⟨rfl, rfl, rfl, rfl, rfl, rfl⟩
      obtain ⟨hg, hgs, hep, hv, hqu, hlv⟩ := hIncFields
      rw [hg, hgs, hep, hv, hqu] at hspec
      have hpu : s.perform_update = sim_run_level s.queue.length sInc := by
        unfold SimState.perform_update
        rw [if_neg hq]
      by_cases hfound : (run_level s.grid s.grid_size s.end_pos s.queue.length s.visited s.queue).1
      · rw [if_pos hfound]
        obtain ⟨s', he, _, _, _⟩ := hspec.1 hfound
        unfold run_to_completion run_sim
        rw [hpu, he, hlv]
        simp
      · rw [if_neg hfound]
        obtain ⟨s', he, h1, h2, h3, h4, h5, h6, h7⟩ :=
          hspec.2 (by simpa using hfound)
        have hrs : run_sim (fuel + 1) s = run_sim fuel s' := by
          rw [run_sim, hpu, he]
        have hstep : run_to_completion (fuel + 1) s = run_to_completion fuel s' := by
          unfold run_to_completion
          rw [hrs]
        rw [hstep, ih s', h1, h2, h3, h4, h6, h7, hlv]

/-! ## Claim theorems -/

/-- **C3**: on the literal grids of the spec, `shortest_path` with default
endpoints `(0,0)` and `(size-1,size-1)` returns 2, 4, 7 and -1
respectively.  The "cell (1,2) flipped from 0 to 1" of the fourth grid is
the cell at column 1, row 2 (`grid[2][1]`, the only cell holding 0 that
the description can denote), matching the unsolvable grid of the
repository's test file. -/
theorem claim_C3_concrete_grids :
    shortest_path_default [[0,1],[1,0]] = 2 ∧
    shortest_path_default [[0,0,0],[1,1,0],[1,1,0]] = 4 ∧
    shortest_path_default [[0,0,0,1,1],[1,0,1,1,1],[1,0,1,0,1],[0,0,1,0,0],[1,0,0,0,0]] = 7 ∧
    shortest_path_default [[0,0,0,1,1],[1,0,1,1,1],[1,1,1,0,1],[0,0,1,0,0],[1,0,0,0,0]] = -1 :=
  ⟨by decide, by decide, by decide, by decide⟩

/-- **C5**: for in-bounds endpoints, if the start or the end cell is a
wall, the one-shot `shortest_path` returns `-1` (it is a total function
here; the guard fires before any traversal). -/
theorem claim_C5_wall_endpoint (grid : Grid) (start endPos : Pos)
    (hs : inBounds grid.length start) (he : inBounds grid.length endPos)
    (hwall : gridAt grid start.1 start.2 = WALL ∨ gridAt grid endPos.1 endPos.2 = WALL) :
    shortest_path grid start endPos = -1 := by
  unfold shortest_path
  rw [if_pos hwall]

/-- Witness for C5 at a concrete wall-start grid. -/
theorem claim_C5_wall_endpoint_witness :
    gridAt [[1,0],[0,0]] 0 0 = WALL ∧ shortest_path [[1,0],[0,0]] (0,0) (1,1) = -1 :=
  ⟨by decide, claim_C5_wall_endpoint [[1,0],[0,0]] (0,0) (1,1)
    (by decide) (by decide) (Or.inl (by decide))⟩

/-- **C10**: `shortest_path` returns either `-1` or a value `≥ 1`; `0` is
never returned, because the level counter is incremented before the
dequeued cell is compared with the end position. -/
theorem claim_C10_never_zero (grid : Grid) (start endPos : Pos) :
    shortest_path grid start endPos = -1 ∨ 1 ≤ shortest_path grid start endPos := by
  unfold shortest_path
  split
  · left; rfl
  · dsimp only
    rcases bfs_rounds_result grid grid.length endPos (bfsFuel grid.length) [start] [start] 0
      with h | h | ⟨r, hr, hle⟩
    · rw [h]; left; rfl
    · rw [h]; left; rfl
    · rw [hr]
      right
      simpa using hle

/-- **C1 counterexample**: with a wall on the start cell, the one-shot
query returns `-1` while draining the stepwise engine constructed on the
same inputs reports a found level of 2 — the claimed equivalence for
*every* start and end position is false. -/
theorem claim_C1_counterexample :
    shortest_path [[1,0],[0,0]] (0,0) (1,1) = -1 ∧
    run_to_completion 5 (initState [[1,0],[0,0]] (0,0) (1,1)) = some 2 :=
  ⟨by decide, by decide⟩

/-- **C1 amended**: for in-bounds endpoints that are both open cells,
draining the stepwise engine yields exactly the one-shot result (found
level, or `-1` on an emptied queue). -/
theorem claim_C1_drain_equivalence (grid : Grid) (start endPos : Pos)
    (hs : inBounds grid.length start) (he : inBounds grid.length endPos)
    (hso : openCell grid start) (heo : openCell grid endPos) :
    run_to_completion (bfsFuel grid.length) (initState grid start endPos) =
      some (shortest_path grid start endPos) := by
  rw [run_to_completion_eq_bfs]
  show bfs_rounds grid grid.length endPos (bfsFuel grid.length) [start] [start] 0 = _
  exact shortest_path_eq_some grid start endPos hs.1 hs.2 hso heo

/-- Witness for the amended C1 at a concrete open-endpoint grid. -/
theorem claim_C1_drain_equivalence_witness :
    run_to_completion (bfsFuel 2) (initState [[0,1],[1,0]] (0,0) (1,1)) =
      some (shortest_path [[0,1],[1,0]] (0,0) (1,1)) :=
  claim_C1_drain_equivalence [[0,1],[1,0]] (0,0) (1,1)
    (by decide) (by decide) (by decide) (by decide)

/-- **C6 counterexample**: `SimulationState.__init__` performs no wall
check: on a grid whose start cell is a wall, construction succeeds with
the ordinary READY state and the engine even runs to a FOUND result, so
"construction never succeeds with a wall endpoint" is false. -/
theorem claim_C6_counterexample :
    gridAt [[1,0],[0,0]] 0 0 = WALL ∧
    initState [[1,0],[0,0]] (0,0) (1,1) =
      { grid := [[1,0],[0,0]], grid_size := 2, visited := [(0,0)], queue := [(0,0)],
        parents := [], start_pos := (0,0), end_pos := (1,1), level := 0 } ∧
    run_to_completion 5 (initState [[1,0],[0,0]] (0,0) (1,1)) = some 2 :=
  ⟨by decide, by decide, by decide⟩

/-- **C6 amended**: constructing the stepwise engine never fails — for
every grid and endpoints, wall or not, construction succeeds with
`visited = {start}`, `queue = [start]`, empty parent map and `level = 0`;
the wall-endpoint refusal exists only in the one-shot `shortest_path`,
which returns `-1`. -/
theorem claim_C6_construction_never_fails (grid : Grid) (start endPos : Pos) :
    (initState grid start endPos).visited = [start] ∧
    (initState grid start endPos).queue = [start] ∧
    (initState grid start endPos).parents = [] ∧
    (initState grid start endPos).level = 0 ∧
    (gridAt grid start.1 start.2 = WALL ∨ gridAt grid endPos.1 endPos.2 = WALL →
      shortest_path grid start endPos = -1) := by
  refine ⟨rfl, rfl, rfl, rfl, fun h => ?_⟩
  unfold shortest_path
  rw [if_pos h]

/-- Witness for the amended C6 at a concrete wall-start grid. -/
theorem claim_C6_construction_never_fails_witness :
    gridAt [[1,0],[0,0]] 0 0 = WALL ∧
    (initState [[1,0],[0,0]] (0,0) (1,1)).queue = [(0,0)] ∧
    shortest_path [[1,0],[0,0]] (0,0) (1,1) = -1 :=
  ⟨by decide, (claim_C6_construction_never_fails [[1,0],[0,0]] (0,0) (1,1)).2.1,
    (claim_C6_construction_never_fails [[1,0],[0,0]] (0,0) (1,1)).2.2.2.2 (Or.inl (by decide))⟩

/-- **C8**: `create_grid` (and its wrappers) fails with `InvalidSize`
exactly when `size < 3`, independently of the sample stream (no sampling
is consulted for the error); for `size ≥ 3` the result is always a
normal `.ok` value. -/
theorem claim_C8_size_check (size : Nat) (start_pos : Pos) (end_pos : Option Pos)
    (pred : Int → Bool) (samples : List Grid) :
    (size < 3 →
      create_grid size start_pos end_pos pred samples = .error .invalidSize ∧
      create_good_grid size start_pos end_pos samples = .error .invalidSize ∧
      create_bad_grid size start_pos end_pos samples = .error .invalidSize) ∧
    (3 ≤ size →
      (∃ r, create_grid size start_pos end_pos pred samples = .ok r) ∧
      (∃ r, create_good_grid size start_pos end_pos samples = .ok r) ∧
      (∃ r, create_bad_grid size start_pos end_pos samples = .ok r)) := by
  constructor
  · intro h
    refine ⟨?_, ?_, ?_⟩ <;>
      simp [create_grid, create_good_grid, create_bad_grid, h]
  · intro h
    have h3 : ¬ size < 3 := by omega
    exact ⟨⟨_, by rw [create_grid, if_neg h3]⟩,
      ⟨_, by rw [create_good_grid, create_grid, if_neg h3]⟩,
      ⟨_, by rw [create_bad_grid, create_grid, if_neg h3]⟩⟩

/-- Witness for C8 at sizes 2 and 3. -/
theorem claim_C8_size_check_witness :
    create_grid 2 (0,0) none (fun _ => true) [] = .error .invalidSize ∧
    ∃ r, create_grid 3 (0,0) none (fun _ => true) [] = .ok r :=
  ⟨((claim_C8_size_check 2 (0,0) none (fun _ => true) []).1 (by decide)).1,
   ((claim_C8_size_check 3 (0,0) none (fun _ => true) []).2 (by decide)).1⟩

/-- **C4**: whenever the generator returns a grid, that grid satisfies the
requested predicate of its one-shot result: `create_good_grid` only
returns grids with `shortest_path > 0`, `create_bad_grid` only grids with
`shortest_path = -1`. -/
theorem claim_C4_generator_respects_predicate (size : Nat) (start_pos : Pos)
    (end_pos : Option Pos) (samples : List Grid) (g : Grid) :
    (create_good_grid size start_pos end_pos samples = .ok (some g) →
      0 < shortest_path g start_pos (end_pos.getD (size - 1, size - 1))) ∧
    (create_bad_grid size start_pos end_pos samples = .ok (some g) →
      shortest_path g start_pos (end_pos.getD (size - 1, size - 1)) = -1) := by
  constructor
  · intro h
    simp only [create_good_grid, create_grid] at h
    by_cases hs : size < 3
    · rw [if_pos hs] at h
      exact absurd h (by simp)
    · rw [if_neg hs] at h
      simp only [Except.ok.injEq] at h
      have hp := List.find?_some h
      simpa using hp
  · intro h
    simp only [create_bad_grid, create_grid] at h
    by_cases hs : size < 3
    · rw [if_pos hs] at h
      exact absurd h (by simp)
    · rw [if_neg hs] at h
      simp only [Except.ok.injEq] at h
      have hp := List.find?_some h
      simpa using hp

/-- Witness for C4 with one accepted sample for each generator. -/
theorem claim_C4_generator_witness :
    create_good_grid 3 (0,0) none [[[0,0,0],[0,0,0],[0,0,0]]] =
      .ok (some [[0,0,0],[0,0,0],[0,0,0]]) ∧
    0 < shortest_path [[0,0,0],[0,0,0],[0,0,0]] (0,0) (2,2) ∧
    create_bad_grid 3 (0,0) none [[[0,1,1],[1,1,1],[1,1,0]]] =
      .ok (some [[0,1,1],[1,1,1],[1,1,0]]) ∧
    shortest_path [[0,1,1],[1,1,1],[1,1,0]] (0,0) (2,2) = -1 :=
  ⟨by rfl,
   (claim_C4_generator_respects_predicate 3 (0,0) none [[[0,0,0],[0,0,0],[0,0,0]]]
      [[0,0,0],[0,0,0],[0,0,0]]).1 (by rfl),
   by rfl,
   (claim_C4_generator_respects_predicate 3 (0,0) none [[[0,1,1],[1,1,1],[1,1,0]]]
      [[0,1,1],[1,1,1],[1,1,0]]).2 (by rfl)⟩

/-- **C2 counterexample**: with `start == end` on an open cell,
`shortest_path` returns `1`, not `0` — the level counter counts the cells
of the path, not the edges. -/
theorem claim_C2_counterexample :
    openCell [[0]] (0, 0) ∧
    shortest_path [[0]] (0, 0) (0, 0) ≠ 0 ∧
    shortest_path [[0]] (0, 0) (0, 0) = 1 :=
  ⟨by decide, by decide, by decide⟩

/-- **C2 amended**: the level returned by `shortest_path` counts the
cells on the path (edges + 1): for in-bounds open endpoints,
`start == end` gives `1`, and distinct 8-connected endpoints give `2`. -/
theorem claim_C2_level_counts_cells (grid : Grid) (start endPos : Pos)
    (hs : inBounds grid.length start) (he : inBounds grid.length endPos)
    (hso : openCell grid start) (heo : openCell grid endPos) :
    (start = endPos → shortest_path grid start endPos = 1) ∧
    (start ≠ endPos → Adjacent start endPos → shortest_path grid start endPos = 2) := by
  constructor
  · intro heq
    subst heq
    unfold shortest_path
    rw [if_neg (by push_neg; exact ⟨hso, hso⟩)]
    rw [bfsFuel, bfs_rounds]
    simp [run_level]
  · intro hne hadj
    unfold shortest_path
    rw [if_neg (by push_neg; exact ⟨hso, heo⟩)]
    set size := grid.length with hsize
    set v1 : List Pos := (visit_neighbors start.1 start.2 grid size [start] []).1 with hv1
    set q1 : List Pos := (visit_neighbors start.1 start.2 grid size [start] []).2.1 with hq1
    have h1 : run_level grid size endPos 1 [start] [start] = (false, v1, q1) := by
      rw [run_level, if_neg hne]
      rfl
    have hstep : bfs_rounds grid size endPos (bfsFuel size) [start] [start] 0 =
        bfs_rounds grid size endPos (size * size) v1 q1 1 := by
      rw [bfsFuel, bfs_rounds]
      simp only [List.isEmpty_cons, Bool.false_eq_true, if_false, List.length_singleton, h1]
    obtain ⟨d, hd, hde⟩ := hadj
    have hmem : endPos ∈ q1 := by
      have hq1e : q1 = (visitLoop start.1 start.2 grid size DIRECTIONS [start] []).2 := by
        rw [hq1]
        show [] ++ (visitLoop start.1 start.2 grid size DIRECTIONS [start] []).2 = _
        rw [List.nil_append]
      rw [hq1e]
      apply visitLoop_mem start.1 start.2 grid size endPos he.1 he.2 heo DIRECTIONS [start] [] d hd hde
      simp only [List.mem_singleton]
      intro hc
      exact hne hc.symm
    obtain ⟨k, hk⟩ : ∃ k, size * size = k + 1 := by
      refine ⟨size * size - 1, ?_⟩
      have h1s : 1 ≤ size := by
        have := hs.1
        omega
      have : 1 ≤ size * size := Nat.one_le_iff_ne_zero.mpr (by positivity)
      omega
    have hne1 : q1.isEmpty = false := by
      have hnil := List.ne_nil_of_mem hmem
      cases hq : q1 with
      | nil => exact absurd hq hnil
      | cons a l => rfl
    have hfound : (run_level grid size endPos q1.length v1 q1).1 = true := by
      apply run_level_found
      rw [List.take_length]
      exact hmem
    rw [hstep, hk, bfs_rounds, hne1]
    simp only [Bool.false_eq_true, if_false, hfound, if_true]
    rfl

/-- Witness for the amended C2: both branches at concrete inputs. -/
theorem claim_C2_level_counts_cells_witness :
    shortest_path [[0]] (0, 0) (0, 0) = 1 ∧
    shortest_path [[0,0],[1,1]] (0, 0) (0, 1) = 2 :=
  ⟨(claim_C2_level_counts_cells [[0]] (0, 0) (0, 0)
      (by decide) (by decide) (by decide) (by decide)).1 rfl,
   (claim_C2_level_counts_cells [[0,0],[1,1]] (0, 0) (0, 1)
      (by decide) (by decide) (by decide) (by decide)).2 (by decide) (by decide)⟩

/-- The visited list can only be extended by processing a level, never
truncated or cleared, whatever the arguments. -/
theorem run_level_visited_extends (grid : Grid) (size : Nat) (endPos : Pos) :
    ∀ (n : Nat) (v q : List Pos), ∃ t : List Pos,
      (run_level grid size endPos n v q).2.1 = v ++ t := by
  intro n
  induction n with
  | zero => intro v q; exact ⟨[], by simp [run_level]⟩
  | succ n ih =>
    intro v q
    match q with
    | [] => exact ⟨[], by simp [run_level]⟩
    | p :: rest =>
      by_cases hp : p = endPos
      · exact ⟨[], by simp [run_level, hp]⟩
      · rw [run_level, if_neg hp]
        dsimp only
        obtain ⟨new, hv1, hn1, _, _⟩ := visitLoop_spec p.1 p.2 grid size DIRECTIONS v []
        have hveq : (visit_neighbors p.1 p.2 grid size v rest).1 = v ++ new := hv1
        rw [hveq]
        obtain ⟨t, ht⟩ := ih (v ++ new) (visit_neighbors p.1 p.2 grid size v rest).2.1
        exact ⟨new ++ t, by rw [ht, List.append_assoc]⟩

/-- **C9**: within one BFS run the visited set only grows and a cell is
marked visited exactly when it is enqueued: `visit_neighbors` appends the
same block of newly discovered cells to both the visited list and the
queue, each such cell was unvisited before the call (so no cell is ever
enqueued twice: a no-duplication visited list stays duplicate-free), the
stepwise engine's wrapper updates its visited field the same way, and a
whole level pass only ever extends the visited list. -/
theorem claim_C9_visited_monotone (grid : Grid) (size : Nat) :
    (∀ (x y : Nat) (v q : List Pos),
      (visit_neighbors x y grid size v q).1 = v ++ (visit_neighbors x y grid size v q).2.2 ∧
      (visit_neighbors x y grid size v q).2.1 = q ++ (visit_neighbors x y grid size v q).2.2 ∧
      (∀ p ∈ (visit_neighbors x y grid size v q).2.2, p ∉ v) ∧
      (v.Nodup → (visit_neighbors x y grid size v q).1.Nodup)) ∧
    (∀ (s : SimState) (x y : Nat),
      (s.visitNeighbors x y).visited =
        s.visited ++ (visit_neighbors x y s.grid s.grid_size s.visited s.queue).2.2) ∧
    (∀ (endPos : Pos) (n : Nat) (v q : List Pos),
      ∃ t : List Pos, (run_level grid size endPos n v q).2.1 = v ++ t) := by
  have key : ∀ (g : Grid) (sz x y : Nat) (v q : List Pos),
      (visit_neighbors x y g sz v q).1 = v ++ (visit_neighbors x y g sz v q).2.2 ∧
      (visit_neighbors x y g sz v q).2.1 = q ++ (visit_neighbors x y g sz v q).2.2 ∧
      (∀ p ∈ (visit_neighbors x y g sz v q).2.2, p ∉ v) ∧
      (v.Nodup → (visit_neighbors x y g sz v q).1.Nodup) := by
    intro g sz x y v q
    obtain ⟨new, hv1, hn1, hnd, hprop⟩ := visitLoop_spec x y g sz DIRECTIONS v []
    have hnb : (visit_neighbors x y g sz v q).2.2 = new := by
      show (visitLoop x y g sz DIRECTIONS v []).2 = new
      rw [hn1, List.nil_append]
    have hv : (visit_neighbors x y g sz v q).1 = v ++ new := hv1
    have hq : (visit_neighbors x y g sz v q).2.1 = q ++ new := by
      show q ++ (visitLoop x y g sz DIRECTIONS v []).2 = q ++ new
      rw [hn1, List.nil_append]
    refine ⟨by rw [hv, hnb], by rw [hq, hnb], ?_, ?_⟩
    · intro p hp
      rw [hnb] at hp
      exact (hprop p hp).1
    · intro hvnd
      rw [hv, List.nodup_append]
      refine ⟨hvnd, hnd, ?_⟩
      intro a ha hanew
      exact (hprop a hanew).1 ha
  refine ⟨fun x y v q => key grid size x y v q, ?_, run_level_visited_extends grid size⟩
  intro s x y
  have h := (key s.grid s.grid_size x y s.visited s.queue).1
  exact h

/-- Witness for C9 at a concrete call. -/
theorem claim_C9_visited_monotone_witness :
    (visit_neighbors 0 0 [[0,0],[0,0]] 2 [(0,0)] [(0,0)]).1 =
      [(0,0)] ++ (visit_neighbors 0 0 [[0,0],[0,0]] 2 [(0,0)] [(0,0)]).2.2 ∧
    (visit_neighbors 0 0 [[0,0],[0,0]] 2 [(0,0)] [(0,0)]).1.Nodup :=
  ⟨((claim_C9_visited_monotone [[0,0],[0,0]] 2).1 0 0 [(0,0)] [(0,0)]).1,
   ((claim_C9_visited_monotone [[0,0],[0,0]] 2).1 0 0 [(0,0)] [(0,0)]).2.2.2 (by decide)⟩

/-! ### Path reconstruction: invariants of the parent map -/

/-- Packaged form of `visitLoop_spec` at the `visit_neighbors` wrapper. -/
theorem visit_neighbors_spec (x y : Nat) (g : Grid) (sz : Nat) (v q : List Pos) :
    ∃ new : List Pos,
      (visit_neighbors x y g sz v q).1 = v ++ new ∧
      (visit_neighbors x y g sz v q).2.1 = q ++ new ∧
      (visit_neighbors x y g sz v q).2.2 = new ∧
      new.Nodup ∧
      ∀ p ∈ new, p ∉ v ∧ p.1 < sz ∧ p.2 < sz ∧ gridAt g p.1 p.2 ≠ WALL ∧
        ∃ d ∈ DIRECTIONS, ((p.1 : Int), (p.2 : Int)) = ((x : Int) + d.1, (y : Int) + d.2) := by
  obtain ⟨new, hv1, hn1, hnd, hprop⟩ := visitLoop_spec x y g sz DIRECTIONS v []
  have hnb : (visit_neighbors x y g sz v q).2.2 = new := by
    show (visitLoop x y g sz DIRECTIONS v []).2 = new
    rw [hn1, List.nil_append]
  have hq : (visit_neighbors x y g sz v q).2.1 = q ++ new := by
    show q ++ (visitLoop x y g sz DIRECTIONS v []).2 = q ++ new
    rw [hn1, List.nil_append]
  exact ⟨new, hv1, hq, hnb, hnd, hprop⟩

/-- Appending bindings on the right never changes an existing lookup. -/
theorem lookupParent_append (parents ext : List (Pos × Pos)) (p v : Pos)
    (h : lookupParent parents p = some v) :
    lookupParent (parents ++ ext) p = some v := by
  induction parents with
  | nil => simp [lookupParent] at h
  | cons kv rest ih =>
    rw [lookupParent] at h
    rw [List.cons_append, lookupParent]
    split at h
    · split
      · exact h
      · simp_all
    · split
      · simp_all
      · exact ih h

/-- Looking up a fresh key in freshly appended all-same-parent bindings. -/
theorem lookupParent_fresh (parents : List (Pos × Pos)) (nbrs : List Pos) (xy p : Pos)
    (hfresh : p ∉ parents.map Prod.fst) (hmem : p ∈ nbrs) :
    lookupParent (parents ++ nbrs.map (fun n => (n, xy))) p = some xy := by
  induction parents with
  | nil =>
    rw [List.nil_append]
    induction nbrs with
    | nil => simp at hmem
    | cons n ns ih =>
      rw [List.map_cons, lookupParent]
      by_cases hn : n = p
      · rw [if_pos hn]
      · rw [if_neg hn]
        apply ih
        rcases List.mem_cons.mp hmem with h | h
        · exact absurd h.symm hn
        · exact h
  | cons kv rest ih =>
    rw [List.cons_append, lookupParent]
    have hk : kv.1 ≠ p := by
      intro hk
      apply hfresh
      rw [List.map_cons, ← hk]
      simp
    rw [if_neg hk]
    apply ih
    intro hmem'
    apply hfresh
    rw [List.map_cons]
    exact List.mem_cons_of_mem _ hmem'

/-- A successful reconstruction is unchanged by appending new bindings. -/
theorem build_final_path_append (parents ext : List (Pos × Pos)) (start : Pos) :
    ∀ (fuel : Nat) (p : Pos) (l : List Pos),
      build_final_path parents start fuel p = some l →
      build_final_path (parents ++ ext) start fuel p = some l := by
  intro fuel
  induction fuel with
  | zero => intro p l h; simp [build_final_path] at h
  | succ fuel ih =>
    intro p l h
    rw [build_final_path] at h ⊢
    by_cases hp : p = start
    · rw [if_pos hp] at h ⊢
      exact h
    · rw [if_neg hp] at h ⊢
      match hl : lookupParent parents p with
      | none => rw [hl] at h; exact absurd h (by simp)
      | some prev =>
        rw [hl] at h
        rw [lookupParent_append parents ext p prev hl]
        dsimp only at h ⊢
        obtain ⟨l', hl', hcat⟩ := Option.map_eq_some'.mp h
        rw [ih prev l' hl']
        rw [Option.map_some']
        rw [hcat]

/-- A reconstructed parent chain of length `n` from the start to `p`:
the walk succeeds with fuel `n` and yields a path of `n` cells that
begins at the start, ends at `p`, moves by king steps, and stays on open
cells. -/
def PathTo (parents : List (Pos × Pos)) (grid : Grid) (start p : Pos) (n : Nat) : Prop :=
  ∃ l : List Pos, build_final_path parents start n p = some l ∧
    l.length = n ∧ l.head? = some start ∧ l.getLast? = some p ∧
    List.Chain' Adjacent l ∧ ∀ q ∈ l, openCell grid q

/-- `PathTo` is stable under appending new parent bindings. -/
theorem PathTo_append (parents ext : List (Pos × Pos)) (grid : Grid) (start p : Pos) (n : Nat)
    (h : PathTo parents grid start p n) : PathTo (parents ++ ext) grid start p n := by
  obtain ⟨l, hb, hrest⟩ := h
  exact ⟨l, build_final_path_append parents ext start n p l hb, hrest⟩

/-- The one-step extension of a parent chain: if `p` has a chain of `n`
cells and `nbr` is a fresh open neighbor of `p` recorded with parent `p`,
then `nbr` has a chain of `n + 1` cells in the extended map. -/
theorem PathTo_extend (parents : List (Pos × Pos)) (grid : Grid) (start p nbr : Pos)
    (n : Nat) (nbrs : List Pos)
    (hchain : PathTo parents grid start p n)
    (hfresh : nbr ∉ parents.map Prod.fst) (hne : nbr ≠ start) (hmem : nbr ∈ nbrs)
    (hadj : Adjacent p nbr) (hopen : openCell grid nbr) :
    PathTo (parents ++ nbrs.map (fun q => (q, p))) grid start nbr (n + 1) := by
  obtain ⟨l, hb, hlen, hhead, hlast, hch, hop⟩ := hchain
  refine ⟨l ++ [nbr], ?_, ?_, ?_, ?_, ?_, ?_⟩
  · rw [build_final_path, if_neg hne, lookupParent_fresh parents nbrs p nbr hfresh hmem]
    dsimp only
    rw [build_final_path_append parents (nbrs.map (fun q => (q, p))) start n p l hb]
    rw [Option.map_some']
  · rw [List.length_append, hlen, List.length_singleton]
  · match l, hhead with
    | a :: l', hhead =>
      rw [List.head?_cons] at hhead
      rw [List.cons_append, List.head?_cons]
      exact hhead
  · rw [List.getLast?_concat]
  · rw [List.chain'_append]
    refine ⟨hch, List.chain'_singleton nbr, ?_⟩
    intro a ha b hb'
    rw [hlast] at ha
    rw [List.head?_cons] at hb'
    rw [Option.mem_def] at ha hb'
    cases ha
    cases hb'
    exact hadj
  · intro q hq
    rcases List.mem_append.mp hq with h | h
    · exact hop q h
    · rw [List.mem_singleton] at h
      rw [h]
      exact hopen

/-- Main induction for the inner loop of `perform_update`: processing the
`n` remaining old-generation cells (whose chains have `s.level` cells)
preserves the parent-chain invariants; the freshly enqueued cells get
chains of `s.level + 1` cells.  On FOUND, the end position has a chain of
exactly the reported level's length. -/
theorem sim_run_level_invariant (grid : Grid) (start endp : Pos) :
    ∀ (n : Nat) (s : SimState) (qOld qNew : List Pos),
      s.grid = grid → s.grid_size = grid.length → s.start_pos = start → s.end_pos = endp →
      s.queue = qOld ++ qNew → qOld.length = n →
      start ∈ s.visited →
      (∀ k ∈ s.parents.map Prod.fst, k ∈ s.visited) →
      (∀ p ∈ qOld, PathTo s.parents grid start p s.level) →
      (∀ p ∈ qNew, PathTo s.parents grid start p (s.level + 1)) →
      (∀ (s' : SimState) (lvl : Nat), sim_run_level n s = .completed s' lvl →
        lvl = s.level ∧ s'.start_pos = start ∧ s'.end_pos = endp ∧
        PathTo s'.parents grid start endp s.level) ∧
      (∀ s' : SimState, sim_run_level n s = .running s' →
        s'.grid = grid ∧ s'.grid_size = grid.length ∧ s'.start_pos = start ∧
        s'.end_pos = endp ∧ s'.level = s.level ∧ start ∈ s'.visited ∧
        (∀ k ∈ s'.parents.map Prod.fst, k ∈ s'.visited) ∧
        (∀ p ∈ s'.queue, PathTo s'.parents grid start p (s.level + 1))) := by
  intro n
  induction n with
  | zero =>
    intro s qOld qNew hg hgs hsp hep hq hlen hsv hkeys hOld hNew
    constructor
    · intro s' lvl h
      exact absurd h (by simp [sim_run_level])
    · intro s' h
      rw [sim_run_level] at h
      cases h
      have hqOld : qOld = [] := List.length_eq_zero.mp hlen
      refine ⟨hg, hgs, hsp, hep, rfl, hsv, hkeys, ?_⟩
      intro p hp
      apply hNew
      rw [hqOld, List.nil_append] at hq
      rw [← hq]
      exact hp
  | succ n ih =>
    intro s qOld qNew hg hgs hsp hep hq hlen hsv hkeys hOld hNew
    match qOld, hlen with
    | po :: qOld', hlen =>
      have hq2 : s.queue = po :: (qOld' ++ qNew) := by rw [hq, List.cons_append]
      rw [sim_run_level, hq2]
      dsimp only
      by_cases hpo : po = s.end_pos
      · rw [if_pos hpo]
        constructor
        · intro s' lvl h
          injection h with h1 h2
          subst h1
          subst h2
          refine ⟨rfl, hsp, hep, ?_⟩
          have hpath := hOld po (List.mem_cons_self po qOld')
          rwa [hpo, hep] at hpath
        · intro s' h
          exact absurd h (by simp)
      · rw [if_neg hpo]
        obtain ⟨new, hvis, hque, hnbr, hnewnd, hprop⟩ :=
          visit_neighbors_spec po.1 po.2 s.grid s.grid_size s.visited (qOld' ++ qNew)
        set s2 : SimState :=
          (({ s with queue := qOld' ++ qNew } : SimState)).visitNeighbors po.1 po.2 with hs2
        have h2v : s2.visited = s.visited ++ new := hvis
        have h2q : s2.queue = (qOld' ++ qNew) ++ new := hque
        have h2p : s2.parents = s.parents ++ new.map (fun q => (q, po)) := by
          show s.parents ++
            (visit_neighbors po.1 po.2 s.grid s.grid_size s.visited (qOld' ++ qNew)).2.2.map
              (fun q => (q, po)) = _
          rw [hnbr]
        have hfreshv : ∀ p ∈ new, p ∉ s.visited := fun p hp => (hprop p hp).1
        have hnewopen : ∀ p ∈ new, openCell grid p := by
          intro p hp
          have := (hprop p hp).2.2.2.1
          rw [hg] at this
          exact this
        have hpath_po : PathTo s.parents grid start po s.level :=
          hOld po (List.mem_cons_self po qOld')
        have hmain := ih s2 qOld' (qNew ++ new) hg hgs hsp hep
          (by rw [h2q, List.append_assoc]) (by simpa using hlen)
          (by rw [h2v]; exact List.mem_append_left new hsv)
          (by
            intro k hk
            rw [h2p, List.map_append, List.map_map] at hk
            rw [h2v]
            rcases List.mem_append.mp hk with h | h
            · exact List.mem_append_left new (hkeys k h)
            · apply List.mem_append_right
              simpa using h)
          (by
            intro p hp
            rw [h2p]
            exact PathTo_append _ _ grid start p s.level (hOld p (List.mem_cons_of_mem po hp)))
          (by
            intro p hp
            rcases List.mem_append.mp hp with h | h
            · rw [h2p]
              exact PathTo_append _ _ grid start p (s.level + 1) (hNew p h)
            · rw [h2p]
              apply PathTo_extend s.parents grid start po p s.level new hpath_po
              · intro hmem
                exact hfreshv p h (hkeys p hmem)
              · intro heq
                exact hfreshv p h (heq ▸ hsv)
              · exact h
              · exact (hprop p h).2.2.2.2
              · exact hnewopen p h)
        exact hmain

/-- The between-round invariant of the stepwise engine: bookkeeping
fields are fixed, the start is visited, parent-map keys are visited, and
every queued cell has a parent chain of `level + 1` cells. -/
def RoundInvariant (grid : Grid) (start endp : Pos) (s : SimState) : Prop :=
  s.grid = grid ∧ s.grid_size = grid.length ∧ s.start_pos = start ∧ s.end_pos = endp ∧
  start ∈ s.visited ∧
  (∀ k ∈ s.parents.map Prod.fst, k ∈ s.visited) ∧
  (∀ p ∈ s.queue, PathTo s.parents grid start p (s.level + 1))

/-- `perform_update` preserves the round invariant, and on FOUND reports
a level equal to the length of the end position's parent chain. -/
theorem perform_update_invariant (grid : Grid) (start endp : Pos) (s : SimState)
    (hinv : RoundInvariant grid start endp s) :
    (∀ s' : SimState, s.perform_update = .running s' → RoundInvariant grid start endp s') ∧
    (∀ (s' : SimState) (lvl : Nat), s.perform_update = .completed s' lvl →
      s'.start_pos = start ∧ s'.end_pos = endp ∧ PathTo s'.parents grid start endp lvl) := by
  obtain ⟨hg, hgs, hsp, hep, hsv, hkeys, hq⟩ := hinv
  unfold SimState.perform_update
  by_cases hqe : s.queue.isEmpty
  · rw [if_pos hqe]
    exact ⟨fun s' h => absurd h (by simp), fun s' lvl h => absurd h (by simp)⟩
  · rw [if_neg hqe]
    have hmain := sim_run_level_invariant grid start endp s.queue.length
      ({ s with level := s.level + 1 } : SimState) s.queue []
      hg hgs hsp hep (by rw [List.append_nil]) rfl hsv hkeys
      (fun p hp => hq p hp)
      (fun p hp => absurd hp (List.not_mem_nil p))
    constructor
    · intro s' h
      obtain ⟨hg', hgs', hsp', hep', hlv', hsv', hkeys', hq'⟩ := hmain.2 s' h
      refine ⟨hg', hgs', hsp', hep', hsv', hkeys', ?_⟩
      intro p hp
      rw [hlv']
      exact hq' p hp
    · intro s' lvl h
      obtain ⟨hlvl, hsp', hep', hpath⟩ := hmain.1 s' lvl h
      refine ⟨hsp', hep', ?_⟩
      rw [hlvl]
      exact hpath

/-- Draining preserves the invariant down to the FOUND state. -/
theorem run_sim_found_invariant (grid : Grid) (start endp : Pos) :
    ∀ (fuel : Nat) (s : SimState), RoundInvariant grid start endp s →
      ∀ (s' : SimState) (lvl : Nat), run_sim fuel s = some (.found s' lvl) →
        s'.start_pos = start ∧ s'.end_pos = endp ∧
        PathTo s'.parents grid start endp lvl := by
  intro fuel
  induction fuel with
  | zero => intro s _ s' lvl h; exact absurd h (by simp [run_sim])
  | succ fuel ih =>
    intro s hinv s' lvl h
    rw [run_sim] at h
    match hpu : s.perform_update with
    | .running s1 =>
      rw [hpu] at h
      exact ih s1 ((perform_update_invariant grid start endp s hinv).1 s1 hpu) s' lvl h
    | .noPath l =>
      rw [hpu] at h
      exact absurd h (by simp)
    | .completed s1 l =>
      rw [hpu] at h
      have hh : s1 = s' ∧ l = lvl := by
        simpa using h
      obtain ⟨h1, h2⟩ := hh
      subst h1
      subst h2
      exact (perform_update_invariant grid start endp s hinv).2 s1 l hpu

/-- **C7 counterexample**: on the 1×1 grid with `start == end`, the
engine reports FOUND at level 1 but the reconstructed path has 1 cell,
not `level + 1 = 2` — the claimed length is off by one. -/
theorem claim_C7_counterexample :
    run_sim 2 (initState [[0]] (0,0) (0,0)) =
      some (.found ⟨[[0]], 1, [(0,0)], [], [], (0,0), (0,0), 1⟩ 1) ∧
    build_final_path [] (0,0) 1 (0,0) = some [(0,0)] ∧
    ([((0,0) : Pos)]).length ≠ 1 + 1 :=
  ⟨by decide, by decide, by decide⟩

/-- **C7 amended**: for every run of the stepwise engine whose start cell
is open and on which the end position is dequeued (FOUND at some level),
walking the parent links backward from the end yields a sequence of
exactly `level` cells (not `level + 1`: the engine's level counts the
cells of the path), whose first element is the start, whose last element
is the end, in which consecutive cells are 8-connected and every cell is
open. -/
theorem claim_C7_path_reconstruction (grid : Grid) (start endp : Pos)
    (hso : openCell grid start) (fuel : Nat) (s : SimState) (lvl : Nat)
    (hrun : run_sim fuel (initState grid start endp) = some (.found s lvl)) :
    ∃ l : List Pos, build_final_path s.parents s.start_pos lvl s.end_pos = some l ∧
      l.length = lvl ∧ l.head? = some start ∧ l.getLast? = some endp ∧
      List.Chain' Adjacent l ∧ ∀ p ∈ l, openCell grid p := by
  have hinv0 : RoundInvariant grid start endp (initState grid start endp) := by
    refine ⟨rfl, rfl, rfl, rfl, List.mem_singleton_self start, ?_, ?_⟩
    · intro k hk
      exact absurd hk (by simp [initState])
    · intro p hp
      have hps : p = start := by simpa [initState] using hp
      subst hps
      refine ⟨[p], ?_, by simp [initState], by simp, by simp, List.chain'_singleton p, ?_⟩
      · rw [build_final_path, if_pos rfl]
      · intro q hq
        rw [List.mem_singleton] at hq
        subst hq
        exact hso
  obtain ⟨hsp, hep, l, hb, hlen, hh, hl, hch, hop⟩ :=
    run_sim_found_invariant grid start endp fuel (initState grid start endp) hinv0 s lvl hrun
  exact ⟨l, by rw [hsp, hep]; exact hb, hlen, hh, hl, hch, hop⟩

/-- Witness for the amended C7 on a concrete diagonal grid. -/
theorem claim_C7_path_reconstruction_witness :
    ∃ l : List Pos,
      build_final_path [((1,1),(0,0))] (0,0) 2 (1,1) = some l ∧
      l.length = 2 ∧ l.head? = some (0,0) ∧ l.getLast? = some (1,1) ∧
      List.Chain' Adjacent l ∧ ∀ p ∈ l, openCell [[0,1],[1,0]] p :=
  claim_C7_path_reconstruction [[0,1],[1,0]] (0,0) (1,1) (by decide) 5
    ⟨[[0,1],[1,0]], 2, [(0,0),(1,1)], [], [((1,1),(0,0))], (0,0), (1,1), 2⟩ 2
    (by decide)

end LeetcodeBFS
